import Mathlib

/-
Verification of the dessn supernova Bayesian-hierarchical-model repository.

This file shallowly embeds the parts of the code base that the verified
properties talk about:

  * the single-edge Gaussian test model of dessn/tests/unit/test_grad.py;
  * the Underlying-parameter priors of
    dessn/models/c_pure_snia_simplified/underlying.py;
  * the edges of dessn/examples/simple/simple.py;
  * the bias-correction computation of
    dessn/models/d_simple_stan/simple/calculate_bias.py;
  * the correction-data loaders of
    dessn/models/d_simple_stan/load_correction_data.py;
  * ApproximateModel.get_node_weights of
    dessn/framework/models/approx_model.py.

Machine floats are modelled as exact reals.  Where the Python code can hit
an IEEE special value (numpy division by zero, log of zero) the embedding
makes the outcome explicit through the three-valued `LogVal` type below,
with a comment at each such place recording the IEEE evaluation being
modelled.  Fallible operations return `Except`.
-/

/-- Outcome of evaluating a log-prior or log-likelihood expression under
IEEE semantics: negative infinity (the framework's hard-rejection signal),
an undefined value (NaN), or a finite real. -/
inductive LogVal where
  | negInf : LogVal
  | nan : LogVal
  | fin : ℝ → LogVal

/- ------------------------------------------------------------------ -/
/- Priors of dessn/models/c_pure_snia_simplified/underlying.py          -/
/- ------------------------------------------------------------------ -/

/-- Embedding of `OmegaM.get_log_prior`: `-inf` outside `[0.05, 0.7]`,
otherwise the constant `1`. -/
noncomputable def OmegaM_get_log_prior (omega_m : ℝ) : LogVal :=
  if omega_m < 0.05 ∨ omega_m > 0.7 then .negInf else .fin 1

/-- Embedding of the `IntrinsicScatter` constructor's
`self.prefactor = np.log(np.sqrt(2 * np.pi) * 0.01)`. -/
noncomputable def IntrinsicScatter_prefactor : ℝ :=
  Real.log (Real.sqrt (2 * Real.pi) * 0.01)

/-- Embedding of `IntrinsicScatter.get_log_prior`.  The source guards only
`scatter < 0 or scatter > 1`; at `scatter = 0` the unguarded
`val = np.log10(0.0)` evaluates to `-inf` under IEEE, and the returned
expression `-(val+2)*(val+2)/(0.01*0.01*2) - prefactor` then evaluates to
`-(+inf)/0.0002 - prefactor = -inf`.  The second branch below records that
IEEE evaluation. -/
noncomputable def IntrinsicScatter_get_log_prior (scatter : ℝ) : LogVal :=
  if scatter < 0 ∨ scatter > 1 then .negInf
  else if scatter = 0 then .negInf
  else .fin (-(Real.logb 10 scatter + 2) * (Real.logb 10 scatter + 2) / (0.01 * 0.01 * 2)
      - IntrinsicScatter_prefactor)

/- ------------------------------------------------------------------ -/
/- Edges of dessn/examples/simple/simple.py                             -/
/- ------------------------------------------------------------------ -/

/-- Embedding of `LuminosityToAdjusted.get_transformation`: the mapping
update it returns binds the key `double_luminosity` to this value. -/
noncomputable def LuminosityToAdjusted_get_transformation (luminosity : ℝ) : ℝ :=
  luminosity * 2.0

/-- Embedding of `LuminosityToSupernovaDistribution.get_log_likelihood`.
The source returns `-np.inf` for `t2 < 0` and otherwise evaluates
`-(l - t1)*(l - t1)/(2.0*t2*t2) - np.log(np.sqrt(2*np.pi)*t2)`.
At `t2 = 0` that expression divides by zero and takes `log 0`: under IEEE,
`-(l-t1)^2/0.0` is `-inf` (or `NaN` when `l = t1`) and `-np.log(0.0)` is
`+inf`, so the sum is `NaN` in every case; the second branch records
that evaluation. -/
noncomputable def LuminosityToSNDist_get_log_likelihood
    (double_luminosity SN_theta_1 SN_theta_2 : ℝ) : LogVal :=
  if SN_theta_2 < 0 then .negInf
  else if SN_theta_2 = 0 then .nan
  else .fin (-(double_luminosity - SN_theta_1) * (double_luminosity - SN_theta_1)
        / (2.0 * SN_theta_2 * SN_theta_2)
      - Real.log (Real.sqrt (2 * Real.pi) * SN_theta_2))

/- ------------------------------------------------------------------ -/
/- The gradient-test model of dessn/tests/unit/test_grad.py             -/
/- ------------------------------------------------------------------ -/

/-- Embedding of `TheEdge.get_log_likelihood` from the gradient test:
`-0.5 * (o - m)**2 - np.log(np.sqrt(2 * np.pi) * 1.0)`. -/
noncomputable def TheEdge_get_log_likelihood (obs mean : ℝ) : ℝ :=
  -0.5 * (obs - mean) ^ 2 - Real.log (Real.sqrt (2 * Real.pi) * 1.0)

/-- Embedding of `Underlying.get_log_prior` from the gradient test:
the constant `0.0` (a flat prior). -/
def Underlying_get_log_prior (_mean : ℝ) : ℝ := 0.0

/-- Modelled from the spec: `Model`'s posterior evaluator
(dessn/framework/model.py is not among the provided sources).  Spec §4.3:
the log-posterior of a flat vector is the sum of every Underlying node's
`get_log_prior` and every Edge's `get_log_likelihood` on the unpacked data
mapping.  For the test model the vector is `[x]`, the data mapping is
`{obs: 0.0, mean: x}` (the Observed node holds the fixed array `[0.0]`),
and there is one Underlying node and one Edge. -/
noncomputable def testModel_log_posterior (x : ℝ) : ℝ :=
  Underlying_get_log_prior x + TheEdge_get_log_likelihood 0.0 x

/- ------------------------------------------------------------------ -/
/- Modelled node registry (spec section 4.1)                            -/
/- ------------------------------------------------------------------ -/

/-- Modelled from the spec: a node of the framework's `Model` registry,
reduced to the one attribute the registry keys on.  Spec §3: "`name`
(unique string key)".  The `Model` class itself (dessn/framework/model.py)
is not among the provided sources. -/
structure SpecNode where
  name : String
  deriving DecidableEq

/-- Modelled from the spec: the `Model`'s node registry, in insertion
order. -/
structure SpecModel where
  nodes : List SpecNode
  deriving DecidableEq

/-- Modelled from the spec: the structural error raised on registering a
node whose name already exists. -/
inductive DuplicateNameError where
  | duplicate (name : String) : DuplicateNameError
  deriving DecidableEq

/-- Modelled from the spec: "`add_node(node)` registers a node by name;
fails with a DuplicateNameError if the name already exists" (spec §4.1). -/
def add_node (m : SpecModel) (n : SpecNode) : Except DuplicateNameError SpecModel :=
  if n.name ∈ m.nodes.map SpecNode.name then
    .error (.duplicate n.name)
  else
    .ok ⟨m.nodes ++ [n]⟩

/- ------------------------------------------------------------------ -/
/- dessn/models/d_simple_stan/simple/calculate_bias.py                  -/
/- ------------------------------------------------------------------ -/

/-- Embedding of `scipy.misc.logsumexp`: the log of the sum of the
exponentials of the entries. -/
noncomputable def logsumexp (xs : List ℝ) : ℝ :=
  Real.log ((xs.map Real.exp).sum)

/-- One row of the simulated-supernova pool array (`supernovae2.npy`),
with the columns as indexed by `calculate_bias`: column 1 the apparent
magnitude, column 2 the stretch, column 3 the colour, column 4 the host
mass, column 5 the redshift, column 6 the pass/fail flag against the
survey cuts (`1.0` means passed), column 7 the simulated log density
`existing_prob`.  Column 0 is not read by `calculate_bias`. -/
structure PoolRow where
  col0 : ℝ
  apparent : ℝ
  stretch : ℝ
  colour : ℝ
  mass : ℝ
  redshift : ℝ
  passed : ℝ
  existing_prob : ℝ

/-- One posterior sample of the Stan chain dictionary, holding the fields
`calculate_bias` reads at index `i`. -/
structure ChainSample where
  Om : ℝ
  dscale : ℝ
  dratio : ℝ
  alpha : ℝ
  beta : ℝ
  mean_MB : ℝ
  mean_x1 : ℝ
  mean_c : ℝ
  sigma_MB : ℝ
  sigma_x1 : ℝ
  sigma_c : ℝ
  intrinsic_correlation : Matrix (Fin 3) (Fin 3) ℝ

/-- The sample's vector of population dispersions,
`np.array([sigma_MB, sigma_x1, sigma_c])`. -/
noncomputable def chain_sigmas (s : ChainSample) : Fin 3 → ℝ :=
  ![s.sigma_MB, s.sigma_x1, s.sigma_c]

/-- `chain_sigmas_mat = np.dot(chain_sigmas[:, None], chain_sigmas[None, :])`:
the outer product of the dispersion vector with itself. -/
noncomputable def chain_sigmas_mat (s : ChainSample) : Matrix (Fin 3) (Fin 3) ℝ :=
  fun i j => chain_sigmas s i * chain_sigmas s j

/-- `chain_pop_cov = chain_correlations * chain_sigmas_mat` where
`chain_correlations = R Rᵀ` for `R = intrinsic_correlation` (an
elementwise product of the two matrices). -/
noncomputable def chain_pop_cov (s : ChainSample) : Matrix (Fin 3) (Fin 3) ℝ :=
  fun i j =>
    (s.intrinsic_correlation * Matrix.transpose s.intrinsic_correlation) i j
      * chain_sigmas_mat s i j

/-- Embedding of `scipy.stats.multivariate_normal.logpdf` at a point `x`
with mean `mean` and (nonsingular) covariance `cov`, for dimension 3:
`-3/2 log(2π) - 1/2 log det Σ - 1/2 (x-μ)ᵀ Σ⁻¹ (x-μ)`. -/
noncomputable def multivariate_normal_logpdf
    (x mean : Fin 3 → ℝ) (cov : Matrix (Fin 3) (Fin 3) ℝ) : ℝ :=
  -(3 / 2 : ℝ) * Real.log (2 * Real.pi) - (1 / 2) * Real.log cov.det
    - (1 / 2) * Matrix.dotProduct (x - mean) (cov⁻¹.mulVec (x - mean))

/-- `np.round(..., decimals=3)` on the sample's `Om` before the cosmology
lookup.  (Mathlib's `round` rounds half up, numpy rounds half to even; the
two agree except exactly halfway between two multiples of `0.001`.) -/
noncomputable def roundTo3 (x : ℝ) : ℝ :=
  ((round (x * 1000) : ℤ) : ℝ) / 1000

/-- The loop body of `calculate_bias` for one pool row under one chain
sample: the distance modulus `mus` from the cosmology table keyed by the
rounded `Om`, the host-mass correction, the absolute magnitude `mabs`,
and finally `chain_prob`, the log population density of the realization
under the sample's population parameters. -/
noncomputable def chain_prob (cosmologies : ℝ → ℝ → ℝ) (s : ChainSample) (r : PoolRow) : ℝ :=
  let mus := cosmologies (roundTo3 s.Om) r.redshift
  let redshift_pre_comp := 0.9 + (10 : ℝ) ^ (0.95 * r.redshift)
  let mass_correction := s.dscale * (1.9 * (1 - s.dratio) / redshift_pre_comp + s.dratio)
  let mabs := r.apparent - mus + s.alpha * r.stretch - s.beta * r.colour
    + mass_correction * r.mass
  multivariate_normal_logpdf ![mabs, r.stretch, r.colour]
    ![s.mean_MB, s.mean_x1, s.mean_c] (chain_pop_cov s)

/-- Embedding of `calculate_bias(chain_dictionary, supernovae, cosmologies)`
(the no-cache path; the filesystem memoization at the top of the function
stores and reloads the same result and is outside the data model).  The
pool is masked to the rows whose pass flag equals `1`, truncated to the
first `20000` rows, and for every chain sample `i` the function returns
`logsumexp(chain_prob - existing_prob)` over that pool. -/
noncomputable def calculate_bias (chain_dictionary : List ChainSample)
    (supernovae : List PoolRow) (cosmologies : ℝ → ℝ → ℝ) : List ℝ :=
  let masked := supernovae.filter (fun r => decide (r.passed = 1))
  let truncated := masked.take 20000
  chain_dictionary.map (fun s =>
    logsumexp (truncated.map (fun r => chain_prob cosmologies s r - r.existing_prob)))

/-- Definition following the spec's words, for comparison with
`calculate_bias`: "each sample's normalization is estimated as a
population-density-weighted sum over realizations that passed, divided by
the total simulated density" — in log space, a log-sum-exp over the
passed realizations of the sample's log population density of the
realization minus the realization's simulated log density. -/
noncomputable def spec_normalization (s : ChainSample) (supernovae : List PoolRow)
    (cosmologies : ℝ → ℝ → ℝ) : ℝ :=
  logsumexp ((supernovae.filter (fun r => decide (r.passed = 1))).map
    (fun r => chain_prob cosmologies s r - r.existing_prob))

/-- Embedding of the `__main__` step `logw = n_sne * weights`: the
per-sample log weight is the returned normalization times the number of
real supernovae. -/
noncomputable def main_logw (weights : List ℝ) (n_sne : ℝ) : List ℝ :=
  weights.map (fun w => n_sne * w)

/-- Minimum of a numpy array, `arr.min()` (meaningful on nonempty
input). -/
noncomputable def array_min : List ℝ → ℝ
  | [] => 0
  | x :: xs => xs.foldl min x

/-- Embedding of the remaining `__main__` post-processing:
`logw -= logw.min() + 0; weights = np.exp(-logw)`. -/
noncomputable def bias_exp_weights (reweights : List ℝ) (n_sne : ℝ) : List ℝ :=
  let logw := main_logw reweights n_sne
  logw.map (fun w => Real.exp (-(w - array_min logw)))

/-- State-passing embedding of a `calculate_bias` call for the frame
property: every statement of the Python function either rebinds a local
name or allocates a fresh array (boolean-mask indexing `supernovae[mask, :]`
copies, slicing `[:20000, :]` and column reads are never written through,
the arithmetic creates new arrays, and `weight` is a local list), and no
statement assigns into `chain_dictionary`, `supernovae` or `cosmologies`;
so the caller-visible state is threaded through unchanged next to the
returned weights array. -/
noncomputable def calculate_bias_run (chain_dictionary : List ChainSample)
    (supernovae : List PoolRow) (cosmologies : ℝ → ℝ → ℝ) :
    List ℝ × (List ChainSample × List PoolRow × (ℝ → ℝ → ℝ)) :=
  (calculate_bias chain_dictionary supernovae cosmologies,
    (chain_dictionary, supernovae, cosmologies))

/-- A concrete chain sample (used by concrete instances below). -/
noncomputable def sampleA : ChainSample :=
  ⟨0.3, 0, 0, 0, 0, 0, 0, 0, 1, 1, 1, 1⟩

/-- A concrete pool row whose pass flag is `1`. -/
noncomputable def rowA : PoolRow :=
  ⟨0, 0, 0, 0, 0, 0.5, 1, 0⟩

/- ------------------------------------------------------------------ -/
/- dessn/models/d_simple_stan/load_correction_data.py                   -/
/- ------------------------------------------------------------------ -/

/-- One row of a raw correction-supernova array as stored on disk, eight
columns `c0 .. c7`. -/
structure RawRow where
  c0 : ℝ
  c1 : ℝ
  c2 : ℝ
  c3 : ℝ
  c4 : ℝ
  c5 : ℝ
  c6 : ℝ
  c7 : ℝ

/-- The dictionary of parallel arrays built by the correction loaders. -/
structure CorrectionResult where
  passed : List Bool
  masses : List ℝ
  redshifts : List ℝ
  apparents : List ℝ
  stretches : List ℝ
  colours : List ℝ
  smear : List ℝ
  existing_prob : List ℝ

/-- Embedding of `scipy.stats.norm.logpdf(x, loc, scale)`. -/
noncomputable def norm_logpdf (x loc scale : ℝ) : ℝ :=
  -(x - loc) ^ 2 / (2 * scale ^ 2) - Real.log (Real.sqrt (2 * Real.pi) * scale)

/-- Embedding of `load_snana_correction` on the vstacked (and possibly
shuffled — the shuffle permutes whole rows before the columns are read,
so it is left to the caller) pool: column 0 redshift, 1 apparent,
2 stretch, 3 colour, 4 smear; the pass flag is `col6 > 0.0`; `masses` is
all ones; the smear is folded into the apparent magnitudes
(`result["apparents"] += result["smear"]`); `existing_prob` is the sum of
the three `norm.logpdf` terms. -/
noncomputable def load_snana_correction (supernovae : List RawRow) : CorrectionResult where
  passed := supernovae.map (fun r => decide (r.c6 > 0.0))
  masses := supernovae.map (fun _ => 1)
  redshifts := supernovae.map (fun r => r.c0)
  apparents := supernovae.map (fun r => r.c1 + r.c4)
  stretches := supernovae.map (fun r => r.c2)
  colours := supernovae.map (fun r => r.c3)
  smear := supernovae.map (fun r => r.c4)
  existing_prob := supernovae.map (fun r =>
    norm_logpdf r.c3 0 0.1 + norm_logpdf r.c2 0 1 + norm_logpdf r.c4 0 0.1)

/-- Embedding of `load_sncosmo_correction` on the loaded (and possibly
shuffled) pool: the pass flag is `col6 == 1`; masses and smear both read
column 4; redshift is column 5; `existing_prob` is column 7. -/
noncomputable def load_sncosmo_correction (supernovae : List RawRow) : CorrectionResult where
  passed := supernovae.map (fun r => decide (r.c6 = 1))
  masses := supernovae.map (fun r => r.c4)
  redshifts := supernovae.map (fun r => r.c5)
  apparents := supernovae.map (fun r => r.c1)
  stretches := supernovae.map (fun r => r.c2)
  colours := supernovae.map (fun r => r.c3)
  smear := supernovae.map (fun r => r.c4)
  existing_prob := supernovae.map (fun r => r.c7)

/-- Boolean-mask indexing `arr[mask]`: keep the entries standing at the
positions where the mask holds. -/
def maskSelect {α} (mask : List Bool) (xs : List α) : List α :=
  ((mask.zip xs).filter (fun p => p.1)).map (fun p => p.2)

/-- The `only_passed` loop of `load_correction_supernova`: the mask is
bound to `result["passed"]` once, before the loop, and then every key of
the dictionary — `passed` itself included — is masked with it. -/
def apply_passed_mask (result : CorrectionResult) : CorrectionResult :=
  let mask := result.passed
  { passed := maskSelect mask result.passed
    masses := maskSelect mask result.masses
    redshifts := maskSelect mask result.redshifts
    apparents := maskSelect mask result.apparents
    stretches := maskSelect mask result.stretches
    colours := maskSelect mask result.colours
    smear := maskSelect mask result.smear
    existing_prob := maskSelect mask result.existing_prob }

/-- Embedding of `load_correction_supernova(correction_source,
only_passed)` on a given raw pool: dispatch on the source string, raise a
`ValueError` for an unrecognised source, and apply the passed-mask when
`only_passed` is set. -/
noncomputable def load_correction_supernova (correction_source : String)
    (only_passed : Bool) (supernovae : List RawRow) : Except String CorrectionResult :=
  if correction_source = "snana" then
    let result := load_snana_correction supernovae
    .ok (if only_passed then apply_passed_mask result else result)
  else if correction_source = "sncosmo" then
    let result := load_sncosmo_correction supernovae
    .ok (if only_passed then apply_passed_mask result else result)
  else
    .error ("Correction source " ++ correction_source ++ " not recognised")

/-- A correction dictionary is `uniformly passed` when its `passed` array
is all-true (a list equals a `true`-replicate of its own length exactly
when every entry is `true`) and every other array has the same length as
`passed`. -/
def uniform_passed (r : CorrectionResult) : Prop :=
  r.passed = List.replicate r.passed.length true ∧
  r.masses.length = r.passed.length ∧
  r.redshifts.length = r.passed.length ∧
  r.apparents.length = r.passed.length ∧
  r.stretches.length = r.passed.length ∧
  r.colours.length = r.passed.length ∧
  r.smear.length = r.passed.length ∧
  r.existing_prob.length = r.passed.length

/- ------------------------------------------------------------------ -/
/- ApproximateModel.get_node_weights (framework/models/approx_model.py) -/
/- ------------------------------------------------------------------ -/

/-- The segment that `interp1d(nodes, indexes, kind='linear',
fill_value="extrapolate")` uses for the query `z`: the largest `k` with
`nodes[k] ≤ z`, clamped to `[0, nodes.length - 2]` so that queries
outside the node range extrapolate along the first or last segment.  For
strictly increasing `nodes` the interior break points below `z` form a
prefix, so the clamped index is the count of such break points minus
one. -/
noncomputable def seg_index (nodes : List ℝ) (z : ℝ) : ℕ :=
  (nodes.dropLast.filter (fun a => decide (a ≤ z))).length - 1

/-- The fractional node index `interps` that the linear interpolant
through the points `(nodes[k], k)` assigns to redshift `z` (linearly
extrapolated outside the node range). -/
noncomputable def interp_index (nodes : List ℝ) (z : ℝ) : ℝ :=
  let k := seg_index nodes z
  (k : ℝ) + (z - nodes.getD k 0) / (nodes.getD (k + 1) 0 - nodes.getD k 0)

/-- The raw per-node weights `1 - np.abs(v - indexes)` of one object
whose fractional node index is `v`, over `m` nodes. -/
noncomputable def raw_weights (m : ℕ) (v : ℝ) : List ℝ :=
  (List.range m).map (fun j : ℕ => 1 - |v - (j : ℝ)|)

/-- The raw weights after `node_weights *= (node_weights <= 1) & (node_weights >= 0)`:
entries outside `[0, 1]` are zeroed. -/
noncomputable def clipped_weights (m : ℕ) (v : ℝ) : List ℝ :=
  (raw_weights m v).map (fun x => if 0 ≤ x ∧ x ≤ 1 then x else 0)

/-- One row of `get_node_weights` as a function of the node count and the
object's fractional index, following the source line by line: the raw
weights; `end_mask = np.all(node_weights < 0, axis=1)` (computed from the
raw weights); the clip; `node_weights[end_mask, -1] = 1.0`; `np.abs`; and
the division by the row sum `reweight`.  (When the row sum is zero numpy's
division yields NaN entries; the embedding's division by zero yields `0`:
either way such a row does not sum to `1` — see the counterexample.) -/
noncomputable def rowFrom (m : ℕ) (v : ℝ) : List ℝ :=
  let end_mask := (raw_weights m v).all (fun x => decide (x < 0))
  let with_end := if end_mask then (clipped_weights m v).set (m - 1) 1.0
    else clipped_weights m v
  let absd := with_end.map (fun x => |x|)
  absd.map (fun x => x / absd.sum)

/-- Embedding of one row of `ApproximateModel.get_node_weights` for an
object at redshift `z`. -/
noncomputable def node_weights_row (nodes : List ℝ) (z : ℝ) : List ℝ :=
  rowFrom nodes.length (interp_index nodes z)

/-- Embedding of `ApproximateModel.get_node_weights(nodes, redshifts)`:
one weight row per redshift. -/
noncomputable def get_node_weights (nodes : List ℝ) (redshifts : List ℝ) : List (List ℝ) :=
  redshifts.map (fun z => node_weights_row nodes z)

/- ------------------------------------------------------------------ -/
/- Helper lemmas                                                       -/
/- ------------------------------------------------------------------ -/

lemma maskSelect_self (m : List Bool) :
    maskSelect m m = List.replicate (m.count true) true := by
  induction m with
  | nil => rfl
  | cons b bs ih =>
    cases b with
    | false =>
      have hz : (false :: bs).zip (false :: bs) = (false, false) :: bs.zip bs := rfl
      simp only [maskSelect, hz, List.filter_cons, List.count_cons] at *
      simpa using ih
    | true =>
      have hz : (true :: bs).zip (true :: bs) = (true, true) :: bs.zip bs := rfl
      simp only [maskSelect, hz, List.filter_cons, List.count_cons] at *
      simpa [List.replicate_succ] using ih

lemma maskSelect_length {α} (m : List Bool) (xs : List α) (h : xs.length = m.length) :
    (maskSelect m xs).length = m.count true := by
  induction m generalizing xs with
  | nil =>
    cases xs with
    | nil => rfl
    | cons x xt => simp at h
  | cons b bs ih =>
    cases xs with
    | nil => simp at h
    | cons x xt =>
      have h' : xt.length = bs.length := by simpa using h
      cases b with
      | false =>
        have hz : (false :: bs).zip (x :: xt) = (false, x) :: bs.zip xt := rfl
        simp only [maskSelect, hz, List.filter_cons, List.count_cons] at *
        simpa using ih xt h'
      | true =>
        have hz : (true :: bs).zip (x :: xt) = (true, x) :: bs.zip xt := rfl
        simp only [maskSelect, hz, List.filter_cons, List.count_cons] at *
        simpa using ih xt h'

lemma apply_passed_mask_uniform (r : CorrectionResult)
    (hmas : r.masses.length = r.passed.length)
    (hred : r.redshifts.length = r.passed.length)
    (happ : r.apparents.length = r.passed.length)
    (hstr : r.stretches.length = r.passed.length)
    (hcol : r.colours.length = r.passed.length)
    (hsme : r.smear.length = r.passed.length)
    (hexi : r.existing_prob.length = r.passed.length) :
    uniform_passed (apply_passed_mask r) := by
  have hlen2 : (maskSelect r.passed r.passed).length = r.passed.count true := by
    rw [maskSelect_self, List.length_replicate]
  refine ⟨?_, ?_, ?_, ?_, ?_, ?_, ?_, ?_⟩
  · show maskSelect r.passed r.passed =
      List.replicate (maskSelect r.passed r.passed).length true
    rw [maskSelect_self, List.length_replicate]
  · show (maskSelect r.passed r.masses).length = (maskSelect r.passed r.passed).length
    rw [hlen2]; exact maskSelect_length _ _ hmas
  · show (maskSelect r.passed r.redshifts).length = (maskSelect r.passed r.passed).length
    rw [hlen2]; exact maskSelect_length _ _ hred
  · show (maskSelect r.passed r.apparents).length = (maskSelect r.passed r.passed).length
    rw [hlen2]; exact maskSelect_length _ _ happ
  · show (maskSelect r.passed r.stretches).length = (maskSelect r.passed r.passed).length
    rw [hlen2]; exact maskSelect_length _ _ hstr
  · show (maskSelect r.passed r.colours).length = (maskSelect r.passed r.passed).length
    rw [hlen2]; exact maskSelect_length _ _ hcol
  · show (maskSelect r.passed r.smear).length = (maskSelect r.passed r.passed).length
    rw [hlen2]; exact maskSelect_length _ _ hsme
  · show (maskSelect r.passed r.existing_prob).length = (maskSelect r.passed r.passed).length
    rw [hlen2]; exact maskSelect_length _ _ hexi

lemma foldl_min_le_init (l : List ℝ) (a : ℝ) : l.foldl min a ≤ a := by
  induction l generalizing a with
  | nil => simp
  | cons y ys ih =>
    simpa using le_trans (ih (min a y)) (min_le_left a y)

lemma foldl_min_le_mem (l : List ℝ) (a x : ℝ) (hx : x ∈ l) : l.foldl min a ≤ x := by
  induction l generalizing a with
  | nil => simp at hx
  | cons y ys ih =>
    rcases List.mem_cons.mp hx with h | h
    · subst h
      simpa using le_trans (foldl_min_le_init ys (min a x)) (min_le_right a x)
    · simpa using ih (min a y) h

lemma array_min_le (l : List ℝ) (x : ℝ) (hx : x ∈ l) : array_min l ≤ x := by
  cases l with
  | nil => simp at hx
  | cons y ys =>
    rcases List.mem_cons.mp hx with h | h
    · subst h
      exact foldl_min_le_init ys x
    · exact foldl_min_le_mem ys y x h

lemma filter_replicate_true {α} (p : α → Bool) (a : α) (h : p a = true) (n : ℕ) :
    (List.replicate n a).filter p = List.replicate n a := by
  induction n with
  | zero => simp
  | succ k ih => simp [List.replicate_succ, h, ih]

lemma logsumexp_replicate (n : ℕ) (t : ℝ) :
    logsumexp (List.replicate n t) = Real.log ((n : ℝ) * Real.exp t) := by
  simp [logsumexp, List.map_replicate, List.sum_replicate, nsmul_eq_mul]

lemma sum_map_div (l : List ℝ) (c : ℝ) :
    (l.map (fun x => x / c)).sum = l.sum / c := by
  induction l with
  | nil => simp
  | cons x xs ih => simp [ih, add_div]

lemma endmask_true_of_far (m : ℕ) (v : ℝ) (h : v < -1 ∨ (m : ℝ) < v) :
    (raw_weights m v).all (fun x => decide (x < 0)) = true := by
  rw [List.all_eq_true]
  intro x hx
  rcases List.mem_map.mp hx with ⟨j, hj, rfl⟩
  have hjm : j < m := List.mem_range.mp hj
  have hj0 : (0 : ℝ) ≤ (j : ℝ) := Nat.cast_nonneg j
  rw [decide_eq_true_eq]
  rcases h with h | h
  · have h1 : (1 : ℝ) < (j : ℝ) - v := by linarith
    have h2 : (j : ℝ) - v ≤ |v - (j : ℝ)| := by
      have := neg_le_abs (v - (j : ℝ))
      linarith [this]
    linarith
  · have hjm' : (j : ℝ) + 1 ≤ (m : ℝ) := by
      exact_mod_cast Nat.succ_le_of_lt hjm
    have h1 : (1 : ℝ) < v - (j : ℝ) := by linarith
    have h2 : v - (j : ℝ) ≤ |v - (j : ℝ)| := le_abs_self _
    linarith

lemma raw_pos_of_near (m : ℕ) (v : ℝ) (hm : 1 ≤ m) (h1 : -1 < v) (h2 : v < m) :
    ∃ j, j < m ∧ 0 < 1 - |v - (j : ℝ)| := by
  rcases le_or_lt 0 v with h0 | h0
  · refine ⟨⌊v⌋₊, ?_, ?_⟩
    · exact (Nat.floor_lt h0).mpr h2
    · have ha : (⌊v⌋₊ : ℝ) ≤ v := Nat.floor_le h0
      have hb : v < (⌊v⌋₊ : ℝ) + 1 := Nat.lt_floor_add_one v
      have : |v - (⌊v⌋₊ : ℝ)| < 1 := abs_lt.mpr ⟨by linarith, by linarith⟩
      linarith
  · refine ⟨0, hm, ?_⟩
    have : |v - ((0 : ℕ) : ℝ)| < 1 := by
      rw [Nat.cast_zero, sub_zero]
      exact abs_lt.mpr ⟨h1, by linarith⟩
    linarith

lemma set_last_replicate_zero (k : ℕ) :
    (List.replicate (k + 1) (0 : ℝ)).set k 1 = List.replicate k 0 ++ [1] := by
  induction k with
  | zero => simp
  | succ n ih =>
    rw [List.replicate_succ, List.set_cons_succ, ih, List.replicate_succ, List.cons_append]

lemma clipped_far (m : ℕ) (v : ℝ) (h : v < -1 ∨ (m : ℝ) < v) :
    clipped_weights m v = List.replicate m 0 := by
  have hall := endmask_true_of_far m v h
  rw [List.all_eq_true] at hall
  rw [clipped_weights]
  have : ∀ x ∈ raw_weights m v, (if 0 ≤ x ∧ x ≤ 1 then x else 0) = 0 := by
    intro x hx
    have hneg : x < 0 := by
      have := hall x hx
      rwa [decide_eq_true_eq] at this
    rw [if_neg]
    rintro ⟨h0, -⟩
    linarith
  rw [List.map_congr_left this]
  have hlen : (raw_weights m v).length = m := by
    rw [raw_weights, List.length_map, List.length_range]
  calc (raw_weights m v).map (fun _ => (0:ℝ))
      = List.replicate (raw_weights m v).length 0 := List.map_const' _ _
    _ = List.replicate m 0 := by rw [hlen]

lemma rowFrom_far (m : ℕ) (v : ℝ) (hm : 1 ≤ m) (h : v < -1 ∨ (m : ℝ) < v) :
    rowFrom m v = List.replicate (m - 1) 0 ++ [1] := by
  rw [rowFrom]
  simp only [endmask_true_of_far m v h, if_true, clipped_far m v h]
  have hm' : m - 1 + 1 = m := Nat.succ_pred_eq_of_pos hm
  have hset : (List.replicate m (0:ℝ)).set (m - 1) 1.0 = List.replicate (m - 1) 0 ++ [1] := by
    have := set_last_replicate_zero (m - 1)
    rw [hm'] at this
    norm_num at this ⊢
    exact this
  rw [hset]
  have habs : (List.replicate (m - 1) (0:ℝ) ++ [1]).map (fun x => |x|) =
      List.replicate (m - 1) 0 ++ [1] := by
    simp
  rw [habs]
  have hsum : (List.replicate (m - 1) (0:ℝ) ++ [1]).sum = 1 := by
    simp
  rw [hsum]
  simp

lemma clipped_nonneg (m : ℕ) (v : ℝ) (x : ℝ) (hx : x ∈ clipped_weights m v) : 0 ≤ x := by
  rcases List.mem_map.mp hx with ⟨a, _, rfl⟩
  by_cases h : 0 ≤ a ∧ a ≤ 1
  · rw [if_pos h]; exact h.1
  · rw [if_neg h]

lemma rowFrom_near (m : ℕ) (v : ℝ) (hm : 1 ≤ m) (h1 : -1 < v) (h2 : v < m) :
    (rowFrom m v).map (fun x => |x|) = rowFrom m v ∧ (rowFrom m v).sum = 1 := by
  obtain ⟨j0, hj0m, hj0pos⟩ := raw_pos_of_near m v hm h1 h2
  have hrawmem : (1 - |v - (j0 : ℝ)|) ∈ raw_weights m v := by
    rw [raw_weights]
    exact List.mem_map_of_mem (fun j : ℕ => 1 - |v - (j : ℝ)|) (List.mem_range.mpr hj0m)
  have hend : (raw_weights m v).all (fun x => decide (x < 0)) = false := by
    by_contra hc
    have : (raw_weights m v).all (fun x => decide (x < 0)) = true := by
      revert hc
      cases (raw_weights m v).all (fun x => decide (x < 0)) <;> simp
    rw [List.all_eq_true] at this
    have := this _ hrawmem
    rw [decide_eq_true_eq] at this
    linarith
  have hclipmem : (1 - |v - (j0 : ℝ)|) ∈ clipped_weights m v := by
    have hle1 : 1 - |v - (j0 : ℝ)| ≤ 1 := by
      have := abs_nonneg (v - (j0 : ℝ))
      linarith
    have : (if 0 ≤ 1 - |v - (j0 : ℝ)| ∧ 1 - |v - (j0 : ℝ)| ≤ 1
        then 1 - |v - (j0 : ℝ)| else 0) = 1 - |v - (j0 : ℝ)| :=
      if_pos ⟨hj0pos.le, hle1⟩
    rw [clipped_weights]
    have hmem := List.mem_map_of_mem
      (fun x => if 0 ≤ x ∧ x ≤ 1 then x else 0) hrawmem
    simpa only [this] using hmem
  have hSpos : 0 < (clipped_weights m v).sum :=
    lt_of_lt_of_le hj0pos (List.single_le_sum (clipped_nonneg m v) _ hclipmem)
  have habs : (clipped_weights m v).map (fun x => |x|) = clipped_weights m v := by
    have h1 : (clipped_weights m v).map (fun x => |x|) =
        (clipped_weights m v).map (fun x => x) :=
      List.map_congr_left (fun x hx => abs_of_nonneg (clipped_nonneg m v x hx))
    rw [h1, List.map_id']
  have hrow : rowFrom m v =
      (clipped_weights m v).map (fun x => x / (clipped_weights m v).sum) := by
    rw [rowFrom]
    simp only [hend, if_false, Bool.false_eq_true, habs]
  constructor
  · rw [hrow]
    have h1 : ((clipped_weights m v).map
          (fun x => x / (clipped_weights m v).sum)).map (fun x => |x|) =
        ((clipped_weights m v).map
          (fun x => x / (clipped_weights m v).sum)).map (fun x => x) := by
      refine List.map_congr_left ?_
      intro x hx
      rcases List.mem_map.mp hx with ⟨a, ha, rfl⟩
      exact abs_of_nonneg (div_nonneg (clipped_nonneg m v a ha) hSpos.le)
    rw [h1, List.map_id']
  · rw [hrow, sum_map_div, div_self hSpos.ne.symm]

/- ------------------------------------------------------------------ -/
/- Theorems                                                            -/
/- ------------------------------------------------------------------ -/

/-- C1: for the single-edge, single-Gaussian-likelihood test model
(Observed data `0.0`, flat-prior Underlying `mean`, edge log-likelihood
`-0.5*(obs-mean)^2` minus the Gaussian normalisation constant), the
log-posterior gradient at the one-element vector `[x]` is `[-x]` exactly,
for every real `x`. -/
theorem C1_log_posterior_gradient (x : ℝ) :
    deriv testModel_log_posterior x = -x := by
  have h1 : HasDerivAt (fun y : ℝ => (0.0 - y)) (-1) x := by
    simpa using (hasDerivAt_id x).const_sub (0.0 : ℝ)
  have h2 := ((h1.pow 2).const_mul (-0.5 : ℝ)).sub_const
    (Real.log (Real.sqrt (2 * Real.pi) * 1.0))
  have h3 := h2.const_add (0.0 : ℝ)
  have h4 : testModel_log_posterior =
      fun y : ℝ => 0.0 + (-0.5 * (0.0 - y) ^ 2 - Real.log (Real.sqrt (2 * Real.pi) * 1.0)) := by
    funext y
    simp [testModel_log_posterior, Underlying_get_log_prior, TheEdge_get_log_likelihood]
  rw [h4, h3.deriv]
  push_cast
  ring

/-- C2 (amended): `OmegaM.get_log_prior` returns `-inf` iff
`omega_m < 0.05` or `omega_m > 0.7` and a finite value otherwise, exactly
as claimed; `IntrinsicScatter.get_log_prior`, however, returns `-inf` iff
`scatter ≤ 0` or `scatter > 1` (the boundary point `scatter = 0` lies
inside the claimed support `[0, 1]` but still produces `-inf`, through
`np.log10(0.0)`), and a finite value otherwise. -/
theorem C2_underlying_prior_support (omega_m scatter : ℝ) :
    (OmegaM_get_log_prior omega_m = LogVal.negInf ↔ (omega_m < 0.05 ∨ omega_m > 0.7)) ∧
    ((∃ v, OmegaM_get_log_prior omega_m = LogVal.fin v) ↔ ¬ (omega_m < 0.05 ∨ omega_m > 0.7)) ∧
    (IntrinsicScatter_get_log_prior scatter = LogVal.negInf ↔ (scatter ≤ 0 ∨ scatter > 1)) ∧
    ((∃ v, IntrinsicScatter_get_log_prior scatter = LogVal.fin v) ↔
      ¬ (scatter ≤ 0 ∨ scatter > 1)) := by
  refine ⟨?_, ?_, ?_, ?_⟩
  · by_cases h : omega_m < 0.05 ∨ omega_m > 0.7 <;> simp [OmegaM_get_log_prior, h]
  · by_cases h : omega_m < 0.05 ∨ omega_m > 0.7 <;> simp [OmegaM_get_log_prior, h]
  · by_cases h : scatter < 0 ∨ scatter > 1
    · have h' : scatter ≤ 0 ∨ scatter > 1 := by
        rcases h with h | h
        · exact Or.inl h.le
        · exact Or.inr h
      simp [IntrinsicScatter_get_log_prior, h, h']
    · by_cases h0 : scatter = 0
      · have h' : scatter ≤ 0 ∨ scatter > 1 := Or.inl (le_of_eq h0)
        simp [IntrinsicScatter_get_log_prior, h, h0, h']
      · have h' : ¬ (scatter ≤ 0 ∨ scatter > 1) := by
          push_neg at h ⊢
          exact ⟨lt_of_le_of_ne h.1 (Ne.symm h0), h.2⟩
        simp [IntrinsicScatter_get_log_prior, h, h0, h']
  · by_cases h : scatter < 0 ∨ scatter > 1
    · have h' : scatter ≤ 0 ∨ scatter > 1 := by
        rcases h with h | h
        · exact Or.inl h.le
        · exact Or.inr h
      simp [IntrinsicScatter_get_log_prior, h, h']
    · by_cases h0 : scatter = 0
      · have h' : scatter ≤ 0 ∨ scatter > 1 := Or.inl (le_of_eq h0)
        simp [IntrinsicScatter_get_log_prior, h, h0, h']
      · have h' : ¬ (scatter ≤ 0 ∨ scatter > 1) := by
          push_neg at h ⊢
          exact ⟨lt_of_le_of_ne h.1 (Ne.symm h0), h.2⟩
        simp [IntrinsicScatter_get_log_prior, h, h0, h']

/-- C2 counterexample: at `scatter = 0`, which the claim places inside the
support (`¬ (0 < 0 ∨ 0 > 1)`), `IntrinsicScatter.get_log_prior`
nevertheless evaluates to `-inf`, refuting the claimed "iff". -/
theorem C2_cex :
    IntrinsicScatter_get_log_prior 0 = LogVal.negInf ∧ ¬ ((0:ℝ) < 0 ∨ (0:ℝ) > 1) := by
  constructor
  · norm_num [IntrinsicScatter_get_log_prior]
  · norm_num

/-- C3 (amended): `LuminosityToSupernovaDistribution.get_log_likelihood`
returns `-inf` iff the dispersion `SN_theta_2` is negative, and a
well-defined finite value iff `SN_theta_2 > 0`; at `SN_theta_2 = 0` the
division by `2.0*t2*t2` is NOT guarded and the result is an undefined
value (NaN), not `-inf` and not finite. -/
theorem C3_edge_loglike_total (l t1 t2 : ℝ) :
    (LuminosityToSNDist_get_log_likelihood l t1 t2 = LogVal.negInf ↔ t2 < 0) ∧
    (LuminosityToSNDist_get_log_likelihood l t1 t2 = LogVal.nan ↔ t2 = 0) ∧
    ((∃ v, LuminosityToSNDist_get_log_likelihood l t1 t2 = LogVal.fin v) ↔ 0 < t2) := by
  rcases lt_trichotomy t2 0 with h | h | h
  · simp [LuminosityToSNDist_get_log_likelihood, h, h.ne, not_lt.mpr h.le]
  · simp [LuminosityToSNDist_get_log_likelihood, h]
  · simp [LuminosityToSNDist_get_log_likelihood, not_lt.mpr h.le, h.ne.symm, h]

/-- C3 counterexample: at `SN_theta_2 = 0` (not rejected, since
`¬ (0 < 0)`) the edge evaluates to NaN, which is neither the `-inf`
rejection signal nor a finite value — so the function is not total in the
claimed sense. -/
theorem C3_cex :
    LuminosityToSNDist_get_log_likelihood 0 0 0 = LogVal.nan ∧
    LogVal.nan ≠ LogVal.negInf ∧ ¬ ((0:ℝ) < 0) := by
  refine ⟨?_, by simp, by norm_num⟩
  norm_num [LuminosityToSNDist_get_log_likelihood]

/-- C4: bias-correction importance weights are non-negative and finite:
every entry of the exponentiated weight array
`np.exp(-(n_sne * calculate_bias(...) - min))` lies in `[0, 1]` (in
particular it is `≥ 0` and bounded, hence finite), for every chain, pool,
cosmology table and `n_sne`. -/
theorem C4_bias_weights_nonneg_finite (chain_dictionary : List ChainSample)
    (supernovae : List PoolRow) (cosmologies : ℝ → ℝ → ℝ) (n_sne : ℝ) (w : ℝ)
    (hw : w ∈ bias_exp_weights (calculate_bias chain_dictionary supernovae cosmologies) n_sne) :
    0 ≤ w ∧ w ≤ 1 := by
  revert hw
  generalize calculate_bias chain_dictionary supernovae cosmologies = reweights
  intro hw
  simp only [bias_exp_weights] at hw
  rcases List.mem_map.mp hw with ⟨v, hv, rfl⟩
  refine ⟨(Real.exp_pos _).le, ?_⟩
  rw [Real.exp_le_one_iff]
  have := array_min_le (main_logw reweights n_sne) v hv
  linarith

/-- Witness for C4 at a concrete one-sample chain and one-row pool. -/
theorem C4_bias_weights_nonneg_finite_witness :
    0 ≤ (bias_exp_weights (calculate_bias [sampleA] [rowA] (fun _ _ => 0)) 5).head! ∧
    (bias_exp_weights (calculate_bias [sampleA] [rowA] (fun _ _ => 0)) 5).head! ≤ 1 :=
  C4_bias_weights_nonneg_finite [sampleA] [rowA] (fun _ _ => 0) 5 _
    (List.head!_mem_self (by simp [bias_exp_weights, main_logw, calculate_bias]))

/-- C5 (amended): when at most `20000` pool realizations pass the
selection cuts, `calculate_bias` returns, for every chain sample, the
log-sum-exp over the passed realizations of the sample's log population
density of the realization minus the realization's simulated log
density, and the main-block per-sample log weight is that value times
`n_sne`.  (The source truncates the passed pool to its first `20000`
rows, so with a larger passed pool the sum runs over only those rows —
see the counterexample.) -/
theorem C5_bias_normalization (chain_dictionary : List ChainSample)
    (supernovae : List PoolRow) (cosmologies : ℝ → ℝ → ℝ) (n_sne : ℝ)
    (hlen : (supernovae.filter (fun r => decide (r.passed = 1))).length ≤ 20000) :
    calculate_bias chain_dictionary supernovae cosmologies =
      chain_dictionary.map (fun s => spec_normalization s supernovae cosmologies) ∧
    main_logw (calculate_bias chain_dictionary supernovae cosmologies) n_sne =
      chain_dictionary.map (fun s => n_sne * spec_normalization s supernovae cosmologies) := by
  have h1 : calculate_bias chain_dictionary supernovae cosmologies =
      chain_dictionary.map (fun s => spec_normalization s supernovae cosmologies) := by
    simp only [calculate_bias, spec_normalization, List.take_of_length_le hlen]
  refine ⟨h1, ?_⟩
  rw [h1, main_logw, List.map_map]
  rfl

/-- Witness for C5 at a concrete one-sample chain and one-row pool. -/
theorem C5_bias_normalization_witness :
    calculate_bias [sampleA] [rowA] (fun _ _ => 0) =
      [sampleA].map (fun s => spec_normalization s [rowA] (fun _ _ => 0)) ∧
    main_logw (calculate_bias [sampleA] [rowA] (fun _ _ => 0)) 5 =
      [sampleA].map (fun s => 5 * spec_normalization s [rowA] (fun _ _ => 0)) :=
  C5_bias_normalization [sampleA] [rowA] (fun _ _ => 0) 5
    (le_trans (List.length_filter_le _ _) (by norm_num))

/-- C5 counterexample: with a pool of `20001` passed realizations the
code sums over only the first `20000` of them, so `calculate_bias`
differs from the claimed log-sum-exp over all passed realizations. -/
theorem C5_cex :
    calculate_bias [sampleA] (List.replicate 20001 rowA) (fun _ _ => 0) ≠
      [spec_normalization sampleA (List.replicate 20001 rowA) (fun _ _ => 0)] := by
  have hp : (fun r : PoolRow => decide (r.passed = 1)) rowA = true := by
    simp [rowA]
  have hfilter := filter_replicate_true (fun r : PoolRow => decide (r.passed = 1)) rowA hp 20001
  have hcalc : calculate_bias [sampleA] (List.replicate 20001 rowA) (fun _ _ => 0) =
      [Real.log ((20000 : ℝ) *
        Real.exp (chain_prob (fun _ _ => 0) sampleA rowA - rowA.existing_prob))] := by
    simp only [calculate_bias, hfilter, List.take_replicate, List.map_replicate,
      List.map_cons, List.map_nil, logsumexp_replicate]
    norm_num
  have hspec : spec_normalization sampleA (List.replicate 20001 rowA) (fun _ _ => 0) =
      Real.log ((20001 : ℝ) *
        Real.exp (chain_prob (fun _ _ => 0) sampleA rowA - rowA.existing_prob)) := by
    simp only [spec_normalization, hfilter, List.map_replicate, logsumexp_replicate]
    norm_num
  rw [hcalc, hspec]
  intro hEq
  set t := chain_prob (fun _ _ => 0) sampleA rowA - rowA.existing_prob with ht
  have h1 : Real.log ((20000:ℝ) * Real.exp t) = Real.log ((20001:ℝ) * Real.exp t) := by
    simpa using hEq
  have h2 : (20000:ℝ) * Real.exp t = (20001:ℝ) * Real.exp t := by
    have e1 : Real.exp (Real.log ((20000:ℝ) * Real.exp t)) = (20000:ℝ) * Real.exp t :=
      Real.exp_log (by positivity)
    have e2 : Real.exp (Real.log ((20001:ℝ) * Real.exp t)) = (20001:ℝ) * Real.exp t :=
      Real.exp_log (by positivity)
    rw [← e1, ← e2, h1]
  have := mul_right_cancel₀ (Real.exp_ne_zero t) h2
  norm_num at this

/-- C8: computing bias weights leaves its inputs unchanged: the
state-passing run of `calculate_bias` returns the chain dictionary, the
supernova pool and the cosmology table exactly as they were, next to the
weights array. -/
theorem C8_calculate_bias_frame (chain_dictionary : List ChainSample)
    (supernovae : List PoolRow) (cosmologies : ℝ → ℝ → ℝ) :
    (calculate_bias_run chain_dictionary supernovae cosmologies).2 =
      (chain_dictionary, supernovae, cosmologies) ∧
    (calculate_bias_run chain_dictionary supernovae cosmologies).1 =
      calculate_bias chain_dictionary supernovae cosmologies :=
  ⟨rfl, rfl⟩

/-- C9 (amended): for a strictly increasing nodes array with at least two
entries, every row of `get_node_weights` whose redshift's fractional node
index is not exactly `-1` and not exactly `nodes.length` is element-wise
non-negative (it equals its own elementwise absolute value) and sums to
exactly `1` — this includes redshifts outside the node range other than
the two boundary points.  At fractional index exactly `-1` or
`nodes.length` (one segment width beyond either end) the masked row is
all zero and the division by the zero row sum produces NaN in numpy (`0`
in the embedding), so the row does not sum to `1` there — see the
counterexample. -/
theorem C9_node_weights_convex (nodes redshifts : List ℝ) (z : ℝ)
    (hsorted : List.Chain' (· < ·) nodes) (hm : 2 ≤ nodes.length)
    (hz : z ∈ redshifts)
    (hv1 : interp_index nodes z ≠ -1)
    (hv2 : interp_index nodes z ≠ (nodes.length : ℝ)) :
    node_weights_row nodes z ∈ get_node_weights nodes redshifts ∧
    (node_weights_row nodes z).map (fun x => |x|) = node_weights_row nodes z ∧
    (node_weights_row nodes z).sum = 1 := by
  have hm1 : 1 ≤ nodes.length := le_trans (by norm_num) hm
  refine ⟨?_, ?_⟩
  · rw [get_node_weights]
    exact List.mem_map_of_mem _ hz
  · rw [node_weights_row]
    by_cases hfar : interp_index nodes z < -1 ∨ (nodes.length : ℝ) < interp_index nodes z
    · rw [rowFrom_far nodes.length (interp_index nodes z) hm1 hfar]
      constructor
      · simp
      · simp
    · push_neg at hfar
      have h1 : -1 < interp_index nodes z := lt_of_le_of_ne hfar.1 (Ne.symm hv1)
      have h2 : interp_index nodes z < nodes.length := lt_of_le_of_ne hfar.2 hv2
      exact rowFrom_near nodes.length (interp_index nodes z) hm1 h1 h2

/-- Witness for C9 at `nodes = [1, 2]`, `redshifts = [1.5]`: the
fractional index of `z = 1.5` is `0.5`, away from both boundary points,
and the row is a convex combination. -/
theorem C9_node_weights_convex_witness :
    node_weights_row [(1:ℝ), 2] 1.5 ∈ get_node_weights [(1:ℝ), 2] [1.5] ∧
    (node_weights_row [(1:ℝ), 2] 1.5).map (fun x => |x|) = node_weights_row [(1:ℝ), 2] 1.5 ∧
    (node_weights_row [(1:ℝ), 2] 1.5).sum = 1 :=
  C9_node_weights_convex [1, 2] [1.5] 1.5 (by norm_num) (by norm_num) (by norm_num)
    (by
      have h : interp_index [(1:ℝ), 2] 1.5 = 0.5 := by
        norm_num [interp_index, seg_index, List.filter, List.dropLast]
      rw [h]; norm_num)
    (by
      have h : interp_index [(1:ℝ), 2] 1.5 = 0.5 := by
        norm_num [interp_index, seg_index, List.filter, List.dropLast]
      rw [h]; norm_num)

/-- C9 counterexample: for the strictly increasing nodes `[1, 2]` and the
out-of-range redshift `0` (fractional node index exactly `-1`), the row
of `get_node_weights` is `[0/0, 0/0]` — NaN in numpy, `[0, 0]` in the
embedding — and in either reading it does not sum to `1`, refuting the
claim for redshifts outside the node range. -/
theorem C9_cex :
    get_node_weights [(1:ℝ), 2] [0] = [node_weights_row [(1:ℝ), 2] 0] ∧
    (node_weights_row [(1:ℝ), 2] 0).sum = 0 ∧
    (node_weights_row [(1:ℝ), 2] 0).sum ≠ 1 := by
  have hv : interp_index [(1:ℝ), 2] 0 = -1 := by
    norm_num [interp_index, seg_index, List.filter, List.dropLast]
  have hraw : raw_weights 2 (-1) = [0, -1] := by
    have h2 : List.range 2 = [0, 1] := rfl
    rw [raw_weights, h2]
    norm_num
  have hrow : node_weights_row [(1:ℝ), 2] 0 = [0, 0] := by
    rw [node_weights_row, hv]
    show rowFrom 2 (-1) = [0, 0]
    rw [rowFrom, hraw]
    norm_num [clipped_weights, hraw]
  refine ⟨?_, ?_, ?_⟩
  · rw [get_node_weights]
    rfl
  · rw [hrow]; norm_num
  · rw [hrow]; norm_num

/-- C10: `load_correction_supernova` raises a `ValueError` iff the
correction source is neither `"snana"` nor `"sncosmo"`; and with
`only_passed=True` every array of the returned mapping keeps exactly the
entries standing where the pass flag holds (the `apply_passed_mask` step
the two success branches return), so the returned `passed` array is
all-true (it equals a `true`-replicate of its own length) and every array
has the same filtered length. -/
theorem C10_load_correction (correction_source : String) (only_passed : Bool)
    (supernovae : List RawRow) :
    ((load_correction_supernova correction_source only_passed supernovae =
        .error ("Correction source " ++ correction_source ++ " not recognised")) ↔
      (correction_source ≠ "snana" ∧ correction_source ≠ "sncosmo")) ∧
    load_correction_supernova "snana" true supernovae =
      .ok (apply_passed_mask (load_snana_correction supernovae)) ∧
    load_correction_supernova "sncosmo" true supernovae =
      .ok (apply_passed_mask (load_sncosmo_correction supernovae)) ∧
    uniform_passed (apply_passed_mask (load_snana_correction supernovae)) ∧
    uniform_passed (apply_passed_mask (load_sncosmo_correction supernovae)) := by
  refine ⟨?_, ?_, ?_, ?_, ?_⟩
  · by_cases h1 : correction_source = "snana"
    · simp [load_correction_supernova, h1]
    · by_cases h2 : correction_source = "sncosmo"
      · simp [load_correction_supernova, h1, h2]
      · simp [load_correction_supernova, h1, h2]
  · simp [load_correction_supernova]
  · simp [load_correction_supernova]
  · exact apply_passed_mask_uniform _ (by simp [load_snana_correction])
      (by simp [load_snana_correction]) (by simp [load_snana_correction])
      (by simp [load_snana_correction]) (by simp [load_snana_correction])
      (by simp [load_snana_correction]) (by simp [load_snana_correction])
  · exact apply_passed_mask_uniform _ (by simp [load_sncosmo_correction])
      (by simp [load_sncosmo_correction]) (by simp [load_sncosmo_correction])
      (by simp [load_sncosmo_correction]) (by simp [load_sncosmo_correction])
      (by simp [load_sncosmo_correction]) (by simp [load_sncosmo_correction])

/-- C6: `LuminosityToAdjusted.get_transformation` maps the latent
`luminosity` value to `{double_luminosity: 2 * luminosity}` — the value it
binds satisfies `double_luminosity = 2 * luminosity` for every latent
value, so the Transformed node recomputed from it on each posterior
evaluation always equals twice the latent node. -/
theorem C6_transformation_doubles (luminosity : ℝ) :
    LuminosityToAdjusted_get_transformation luminosity = 2 * luminosity := by
  rw [LuminosityToAdjusted_get_transformation]
  ring

/-- C7: registering a second node with an already-registered name fails
with a `DuplicateNameError` at `add_node` time (before any `finalise`),
and a successful `add_node` preserves uniqueness of the registered
names. -/
theorem C7_add_node_duplicate (m m' : SpecModel) (n1 n2 : SpecNode)
    (hname : n2.name = n1.name)
    (hnodup : (m.nodes.map SpecNode.name).Nodup)
    (hok : add_node m n1 = Except.ok m') :
    add_node m' n2 = Except.error (.duplicate n2.name) ∧
    (m'.nodes.map SpecNode.name).Nodup := by
  rw [add_node] at hok
  by_cases hc : n1.name ∈ m.nodes.map SpecNode.name
  · simp [hc] at hok
  · simp only [hc, if_false, Except.ok.injEq] at hok
    subst hok
    constructor
    · rw [add_node]
      have hmem : n2.name ∈ ((⟨m.nodes ++ [n1]⟩ : SpecModel).nodes.map SpecNode.name) := by
        simp [hname]
      rw [if_pos hmem]
    · simp only [List.map_append, List.map_cons, List.map_nil]
      rw [List.nodup_append]
      refine ⟨hnodup, List.nodup_singleton _, ?_⟩
      intro a ha hb
      simp only [List.mem_singleton] at hb
      subst hb
      exact hc ha

/-- Witness for C7 at a concrete registry: a model already holding a node
named "mean" rejects a second node named "mean". -/
theorem C7_add_node_duplicate_witness :
    add_node ⟨[⟨"mean"⟩]⟩ ⟨"mean"⟩ = Except.error (.duplicate "mean") ∧
    ((⟨[⟨"mean"⟩]⟩ : SpecModel).nodes.map SpecNode.name).Nodup :=
  C7_add_node_duplicate ⟨[]⟩ ⟨[⟨"mean"⟩]⟩ ⟨"mean"⟩ ⟨"mean"⟩ rfl (by simp) rfl
